import Mathlib

/-!
Verification of the `pcf-document-preview` control (classes `DocumentPreview`
in `src/DocumentPreview/index.ts` and `DocumentPreviewInline` in the unnamed
source part) against its natural-language specification.

The relevant program logic is shallowly embedded: pure helpers become Lean
functions on `String`/`List`, the object-URL and zoom lifecycles become
explicit state machines, asynchronous fallible steps become `Except` values,
and the external decoding libraries (pdf.js, docx-preview, FileReader) are
abstracted as success/failure oracles passed in as arguments.
-/

namespace DocumentPreview

/-! ## Supported types (fields `supportedExtensions`, `supportedMimeTypes`) -/

def supportedExtensions : List String :=
  ["pdf", "doc", "docx", "png", "jpg", "jpeg", "gif"]

def supportedMimeTypes : List String :=
  ["application/pdf",
   "application/msword",
   "application/vnd.openxmlformats-officedocument.wordprocessingml.document",
   "image/png",
   "image/jpeg",
   "image/gif"]

/-! ## Extension extraction (`hasPreviewableAttachment`, both classes)

The source computes `dot = fileName.lastIndexOf(".")`, rejects
`dot <= 0 || dot === fileName.length - 1`, and otherwise takes
`fileName.substring(dot + 1).toLowerCase()`.  `lastIndexOfAux` returns the
index of the last occurrence of a character (`none` for JavaScript's `-1`). -/

def lastIndexOfAux (c : Char) : List Char → Option Nat
  | [] => none
  | a :: rest =>
    match lastIndexOfAux c rest with
    | some i => some (i + 1)
    | none => if a = c then some 0 else none

/-- Model of JavaScript `String.prototype.toLowerCase` (all the strings the
control compares are ASCII, where `Char.toLower` agrees with it). -/
def strToLower (s : String) : String :=
  String.mk (s.toList.map Char.toLower)

/-- Model of JavaScript `String.prototype.endsWith`. -/
def strEndsWith (s p : String) : Bool :=
  s.toList.drop (s.toList.length - p.toList.length) == p.toList

/-- Model of JavaScript `String.prototype.startsWith`. -/
def strStartsWith (s p : String) : Bool :=
  s.toList.take p.toList.length == p.toList

/-- The usable extension of a file name: the lowercased text after the last
dot, provided that dot exists, is not the first character, and is not the
last character (mirrors the `dot <= 0 || dot === fileName.length - 1`
rejection in `hasPreviewableAttachment`). -/
def extractExt (fileName : String) : Option String :=
  match lastIndexOfAux '.' fileName.toList with
  | none => none
  | some dot =>
    if dot = 0 ∨ dot = fileName.toList.length - 1 then none
    else some (strToLower (String.mk (fileName.toList.drop (dot + 1))))

/-- The two columns retrieved by `webApi.retrieveRecord`: the file column
value (a file reference, `none`/empty both falsy in the source) and the
`_name` column (`record[nameColumn] || ""` treats `none` and `""` alike). -/
structure DvRecord where
  fileRef : Option String
  fileName : Option String
deriving DecidableEq

/-- `hasPreviewableAttachment` (identical logic in both classes): no file
reference → `false`; file but no name → `true` (preview allowed as a
fallback); otherwise the extension must be in `supportedExtensions`. -/
def hasPreviewableAttachment (record : DvRecord) : Bool :=
  match record.fileRef with
  | none => false
  | some fileRef =>
    if fileRef = "" then false
    else
      let fileName := record.fileName.getD ""
      if fileName = "" then true
      else
        match extractExt fileName with
        | none => false
        | some ext => supportedExtensions.contains ext

/-! ## MIME sniffing in `downloadFile` (both classes) -/

def docxMimeType : String :=
  "application/vnd.openxmlformats-officedocument.wordprocessingml.document"

/-- The suffix patterns `downloadFile` tests against the lowercased name. -/
def mimePatterns : List String :=
  [".pdf", ".docx", ".doc", ".png", ".jpg", ".jpeg", ".gif"]

/-- The seven values `downloadFile` can assign to `mimeType`. -/
def mimeValues : List String :=
  ["application/pdf", docxMimeType, "application/msword",
   "image/png", "image/jpeg", "image/gif", "application/octet-stream"]

/-- The `mimeType` computation of `downloadFile`: initialise to
`application/octet-stream`, then the `endsWith` chain on
`fileName.toLowerCase()`. -/
def mimeFromName (fileName : String) : String :=
  let lowerName := strToLower fileName
  if strEndsWith lowerName ".pdf" then "application/pdf"
  else if strEndsWith lowerName ".docx" then docxMimeType
  else if strEndsWith lowerName ".doc" then "application/msword"
  else if strEndsWith lowerName ".png" then "image/png"
  else if strEndsWith lowerName ".jpg" || strEndsWith lowerName ".jpeg" then "image/jpeg"
  else if strEndsWith lowerName ".gif" then "image/gif"
  else "application/octet-stream"

/-! ## File metadata and errors -/

/-- The `{ blob, fileName, mimeType }` triple returned by `downloadFile`
(the blob's bytes are irrelevant to dispatch; decoding outcomes are
abstracted as oracle arguments below). -/
structure FileInfo where
  fileName : String
  mimeType : String
deriving DecidableEq

instance {ε α : Type} [DecidableEq ε] [DecidableEq α] : DecidableEq (Except ε α) := fun a b =>
  match a, b with
  | .ok x, .ok y => if h : x = y then .isTrue (by rw [h]) else .isFalse (by simp [h])
  | .error x, .error y => if h : x = y then .isTrue (by rw [h]) else .isFalse (by simp [h])
  | .ok _, .error _ => .isFalse (by simp)
  | .error _, .ok _ => .isFalse (by simp)

/-- A thrown JavaScript error as inspected by the catch handlers: the only
field they read is `err.status` (set by `downloadFile` on a failed fetch,
absent on other errors). -/
structure JsError where
  status : Option Nat
deriving DecidableEq

/-! ## Branch guards of `renderFilePreview` (both classes)

The dispatcher computes `lower = file.fileName.toLowerCase()` and
`mime = file.mimeType.toLowerCase()` and tests these conditions in order. -/

def isPdfBranch (file : FileInfo) : Bool :=
  strToLower file.mimeType == "application/pdf" ||
    strEndsWith (strToLower file.fileName) ".pdf"

def isImageBranch (file : FileInfo) : Bool :=
  strStartsWith (strToLower file.mimeType) "image/"

def isDocxBranch (file : FileInfo) : Bool :=
  strEndsWith (strToLower file.fileName) ".docx"

def isDocBranch (file : FileInfo) : Bool :=
  strEndsWith (strToLower file.fileName) ".doc"

/-! ## The PDF page loop

`for (let pageNum = 1; pageNum <= numPages; pageNum++)`: each iteration
fetches page `pageNum`, creates a fresh canvas (`document.createElement`),
and renders the page onto it.  A render event is modelled as the pair
`(pageNum, canvasId)`, with canvas ids drawn from a fresh-allocation
counter that increments once per iteration. -/

def pdfRenderFrom (pageNum numPages nextCanvas : Nat) : List (Nat × Nat) :=
  if pageNum ≤ numPages then
    (pageNum, nextCanvas) :: pdfRenderFrom (pageNum + 1) numPages (nextCanvas + 1)
  else []
termination_by numPages + 1 - pageNum
decreasing_by simp_wf; omega

/-- The page renders performed by the PDF branch on a document with
`numPages` pages (the modal class sets `renderAllPages = true`, so the loop
bound is `pdf.numPages` in both classes). -/
def pdfPageRenders (numPages : Nat) : List (Nat × Nat) :=
  pdfRenderFrom 1 numPages 0

/-! ## `renderFilePreview` (both classes)

External decoders are oracles: `pdfDecode` is the combined outcome of
`getDocument`/`getPage`/`page.render` inside the PDF branch's `try` (on
success it yields `numPages`), `imageReadOk` tells whether the
`FileReader` fires `onload` or `onerror`, and `docxRender` is the outcome
of `renderAsync`, whose rejection value is a `JsError` because the DOCX
branch has no handler of its own.  The result is `Except`: `Except.error`
means the promise returned by `renderFilePreview` rejects. -/

inductive RenderResult
  | pdfPages (pages : List (Nat × Nat))
  | pdfErrorBlock (msg : String)
  | imageShown
  | imageErrorBlock (msg : String)
  | docxRendered
  | legacyDocMessage (msg : String)
  | unsupportedMessage (mimeType : String)
deriving DecidableEq

def renderFilePreview (file : FileInfo) (pdfDecode : Except Unit Nat)
    (imageReadOk : Bool) (docxRender : Except JsError Unit) :
    Except JsError RenderResult :=
  if isPdfBranch file then
    match pdfDecode with
    | .ok numPages => .ok (.pdfPages (pdfPageRenders numPages))
    | .error _ => .ok (.pdfErrorBlock
        "Could not render PDF preview. You can still use the Download button to open the file.")
  else if isImageBranch file then
    .ok (if imageReadOk then .imageShown
         else .imageErrorBlock
           "Could not render image preview. You can still use the Download button to open the file.")
  else if isDocxBranch file then
    match docxRender with
    | .ok _ => .ok .docxRendered
    | .error e => .error e
  else if isDocBranch file then
    .ok (.legacyDocMessage
      "This file is a legacy .doc format which cannot be rendered inline. Click the button below to open it in a new tab.")
  else
    .ok (.unsupportedMessage file.mimeType)

/-! ## Branch classification (spec section 2: four rendering branches) -/

inductive BranchCat
  | pdf
  | image
  | docx
  | fallback
deriving DecidableEq

/-- The branch the dispatcher selects, following the guard order of
`renderFilePreview`; the legacy `.doc` message and the unsupported-type
message are both graceful fallbacks. -/
def selectBranch (file : FileInfo) : BranchCat :=
  if isPdfBranch file then .pdf
  else if isImageBranch file then .image
  else if isDocxBranch file then .docx
  else .fallback

/-- Which branch produced a given outcome of `renderFilePreview`
(a rejected promise can only come from the DOCX branch). -/
def branchCatOfResult : Except JsError RenderResult → BranchCat
  | .error _ => .docx
  | .ok (.pdfPages _) => .pdf
  | .ok (.pdfErrorBlock _) => .pdf
  | .ok .imageShown => .image
  | .ok (.imageErrorBlock _) => .image
  | .ok .docxRendered => .docx
  | .ok (.legacyDocMessage _) => .fallback
  | .ok (.unsupportedMessage _) => .fallback

/-! ## Top-level action handlers -/

/-- The message chosen by the catch blocks of `onPreviewClick` (alerts) and
`autoLoadPreview` (info blocks): `err.status === 403` selects the
permission message, anything else the generic one. -/
def errorMessageFor (e : JsError) : String :=
  if e.status = some 403 then "You do not have permission to view this document."
  else "Error loading document preview."

inductive PreviewClickOutcome
  | ignored
  | configAlert (msg : String)
  | rendered (r : RenderResult)
  | errorAlert (msg : String)
deriving DecidableEq

/-- `onPreviewClick` of the modal class: early return when the button is
disabled, a configuration alert when context values are missing, then
`try { downloadFile; …; renderFilePreview } catch` mapping the error via
`errorMessageFor`.  `download` is the outcome of `downloadFile` (a fetch
with `!response.ok` throws an error carrying `response.status`). -/
def onPreviewClick (buttonDisabled : Bool) (configPresent : Bool)
    (download : Except JsError FileInfo) (pdfDecode : Except Unit Nat)
    (imageReadOk : Bool) (docxRender : Except JsError Unit) :
    PreviewClickOutcome :=
  if buttonDisabled then .ignored
  else if !configPresent then
    .configAlert "Control is missing configuration (EntityLogicalName or FileColumnName)."
  else
    match download with
    | .error e => .errorAlert (errorMessageFor e)
    | .ok file =>
      match renderFilePreview file pdfDecode imageReadOk docxRender with
      | .error e => .errorAlert (errorMessageFor e)
      | .ok r => .rendered r

inductive AutoLoadOutcome
  | infoMessage (text : String)
  | rendered (r : RenderResult)
deriving DecidableEq

/-- `autoLoadPreview` of the inline class: guard messages for an unsaved
record or missing configuration, then
`try { hasPreviewableAttachment; downloadFile; renderFilePreview } catch`
showing `errorMessageFor` as an info block.  `retrieve` is the outcome of
the `retrieveRecord` call inside `hasPreviewableAttachment`. -/
def autoLoadPreview (entityIdPresent : Bool) (configPresent : Bool)
    (retrieve : Except JsError DvRecord) (download : Except JsError FileInfo)
    (pdfDecode : Except Unit Nat) (imageReadOk : Bool)
    (docxRender : Except JsError Unit) : AutoLoadOutcome :=
  if !entityIdPresent then
    .infoMessage "Save the record and upload a file to see the document preview."
  else if !configPresent then
    .infoMessage "Control is missing configuration (EntityLogicalName or FileColumnName)."
  else
    match retrieve with
    | .error e => .infoMessage (errorMessageFor e)
    | .ok record =>
      if !(hasPreviewableAttachment record) then
        .infoMessage "No previewable file in Attachment."
      else
        match download with
        | .error e => .infoMessage (errorMessageFor e)
        | .ok file =>
          match renderFilePreview file pdfDecode imageReadOk docxRender with
          | .error e => .infoMessage (errorMessageFor e)
          | .ok r => .rendered r

/-- The `fileLabel` text and `previewButton.disabled` flag set by
`checkAttachmentAndUpdateUI` of the modal class. -/
structure CheckUI where
  fileLabel : String
  previewDisabled : Bool
deriving DecidableEq

/-- `checkAttachmentAndUpdateUI`: missing configuration disables the
button with a message; otherwise the (fallible) attachment check either
enables the button, disables it with the no-preview message, or disables
it with the could-not-check message. -/
def checkAttachmentAndUpdateUI (configPresent : Bool)
    (check : Except JsError Bool) : CheckUI :=
  if !configPresent then
    { fileLabel := "Control is missing configuration (EntityLogicalName or FileColumnName).",
      previewDisabled := true }
  else
    match check with
    | .ok true => { fileLabel := "", previewDisabled := false }
    | .ok false => { fileLabel := "No previewable file in Attachment.", previewDisabled := true }
    | .error _ => { fileLabel := "Could not check Attachment.", previewDisabled := true }

/-! ## Zoom state machine (field `zoomLevel`, method `applyZoom`)

`applyZoom(z)` returns early when the modal body / zoom wrapper is absent;
otherwise it stores `Math.min(Math.max(z, 0.5), 3)` and applies
`scale(zoomLevel)` to the wrapper, so the stored factor and the applied
scale coincide. -/

structure ZoomState where
  wrapperPresent : Bool
  zoomLevel : ℚ
deriving DecidableEq

def clampZoom (z : ℚ) : ℚ := min (max z (1/2)) 3

def applyZoom (s : ZoomState) (z : ℚ) : ZoomState :=
  if s.wrapperPresent then { s with zoomLevel := clampZoom z } else s

/-- The operations that reach `applyZoom` or reset the zoom: the −/+/100%
toolbar buttons, `openModal` (which sets `zoomLevel = 1`, rebuilds the
wrapper and calls `applyZoom(1)`), `destroyModal`, and an arbitrary direct
call with input `z`. -/
inductive ZoomOp
  | zoomIn
  | zoomOut
  | reset
  | openModal
  | closeModal
  | applyRaw (z : ℚ)

def zoomStep (s : ZoomState) : ZoomOp → ZoomState
  | .zoomIn => applyZoom s (s.zoomLevel + 1/10)
  | .zoomOut => applyZoom s (s.zoomLevel - 1/10)
  | .reset => applyZoom s 1
  | .openModal => applyZoom { wrapperPresent := true, zoomLevel := 1 } 1
  | .closeModal => { s with wrapperPresent := false }
  | .applyRaw z => applyZoom s z

/-- Initial field values: `zoomLevel = 1`, no modal mounted (the inline
class mounts its wrapper in `init`; starting closed only strengthens the
set of reachable states). -/
def initZoom : ZoomState := { wrapperPresent := false, zoomLevel := 1 }

def runZoom (ops : List ZoomOp) : ZoomState := ops.foldl zoomStep initZoom

/-! ## Object-URL lifecycle state machine

URLs are numbered by a fresh counter (`URL.createObjectURL` always returns
a new URL).  `liveUrls` is the set of URLs created by the control and not
yet revoked.  The operations cover both classes: a successful preview
(`cleanupFileUrl` then `createObjectURL` in `onPreviewClick` /
`autoLoadPreview`), a failed preview (no URL activity), `destroyModal`,
the inline class's `ensurePdfWorkerUrl` (cached through
`pdfWorkerUrlPromise`, which `destroy` never resets), and `destroy`. -/

structure UrlState where
  currentFileUrl : Option Nat
  pdfWorkerUrl : Option Nat
  workerPromiseMade : Bool
  liveUrls : List Nat
  nextUrl : Nat
deriving DecidableEq

/-- `cleanupFileUrl`: revoke `currentFileUrl` if present and null it. -/
def cleanupFileUrl (s : UrlState) : UrlState :=
  match s.currentFileUrl with
  | some u => { s with currentFileUrl := none, liveUrls := s.liveUrls.erase u }
  | none => s

/-- `this.currentFileUrl = URL.createObjectURL(file.blob)`. -/
def createFileUrl (s : UrlState) : UrlState :=
  { s with currentFileUrl := some s.nextUrl,
           liveUrls := s.liveUrls ++ [s.nextUrl],
           nextUrl := s.nextUrl + 1 }

inductive UrlOp
  | previewLoad
  | previewFail
  | closeModal
  | ensureWorker
  | destroyCtrl
deriving DecidableEq

def urlStep (s : UrlState) : UrlOp → UrlState
  | .previewLoad => createFileUrl (cleanupFileUrl s)
  | .previewFail => s
  | .closeModal => cleanupFileUrl s
  | .ensureWorker =>
    if s.workerPromiseMade then s
    else { s with workerPromiseMade := true,
                  pdfWorkerUrl := some s.nextUrl,
                  liveUrls := s.liveUrls ++ [s.nextUrl],
                  nextUrl := s.nextUrl + 1 }
  | .destroyCtrl =>
    let s1 := cleanupFileUrl s
    match s1.pdfWorkerUrl with
    | some u => { s1 with pdfWorkerUrl := none, liveUrls := s1.liveUrls.erase u }
    | none => s1

def initUrlState : UrlState :=
  { currentFileUrl := none, pdfWorkerUrl := none, workerPromiseMade := false,
    liveUrls := [], nextUrl := 0 }

def runUrl (ops : List UrlOp) : UrlState := ops.foldl urlStep initUrlState

/-! ## Helper lemmas: zoom -/

theorem clampZoom_bounds (z : ℚ) : 1/2 ≤ clampZoom z ∧ clampZoom z ≤ 3 := by
  unfold clampZoom
  exact ⟨le_min (le_max_right _ _) (by norm_num), min_le_right _ _⟩

theorem applyZoom_bounds {s : ZoomState} (z : ℚ)
    (h : 1/2 ≤ s.zoomLevel ∧ s.zoomLevel ≤ 3) :
    1/2 ≤ (applyZoom s z).zoomLevel ∧ (applyZoom s z).zoomLevel ≤ 3 := by
  unfold applyZoom
  split
  · exact clampZoom_bounds z
  · exact h

theorem zoomStep_bounds {s : ZoomState} (op : ZoomOp)
    (h : 1/2 ≤ s.zoomLevel ∧ s.zoomLevel ≤ 3) :
    1/2 ≤ (zoomStep s op).zoomLevel ∧ (zoomStep s op).zoomLevel ≤ 3 := by
  cases op with
  | zoomIn => exact applyZoom_bounds _ h
  | zoomOut => exact applyZoom_bounds _ h
  | reset => exact applyZoom_bounds _ h
  | openModal => exact applyZoom_bounds _ (by norm_num)
  | closeModal => exact h
  | applyRaw z => exact applyZoom_bounds _ h

theorem foldl_zoomStep_bounds (ops : List ZoomOp) :
    ∀ s : ZoomState, 1/2 ≤ s.zoomLevel ∧ s.zoomLevel ≤ 3 →
      1/2 ≤ (ops.foldl zoomStep s).zoomLevel ∧ (ops.foldl zoomStep s).zoomLevel ≤ 3 := by
  induction ops with
  | nil => intro s hs; exact hs
  | cons op rest ih => intro s hs; exact ih _ (zoomStep_bounds op hs)

end DocumentPreview

namespace DocumentPreview

/-- C2: every zoom factor stored by `applyZoom` is the clamped value
`min (max z 0.5) 3`, that value always lies in the closed interval
`[0.5, 3]`, and after any sequence of zoom-in / zoom-out / reset /
open / close / direct `applyZoom` operations the stored zoom level (which
is also the scale applied to the zoom wrapper) stays in `[0.5, 3]`. -/
theorem zoom_level_always_clamped (ops : List ZoomOp) (z w : ℚ) :
    (applyZoom { wrapperPresent := true, zoomLevel := w } z).zoomLevel = clampZoom z ∧
    1/2 ≤ clampZoom z ∧ clampZoom z ≤ 3 ∧
    1/2 ≤ (runZoom ops).zoomLevel ∧ (runZoom ops).zoomLevel ≤ 3 := by
  obtain ⟨h1, h2⟩ := clampZoom_bounds z
  obtain ⟨h3, h4⟩ := foldl_zoomStep_bounds ops initZoom (by norm_num [initZoom])
  exact ⟨by simp [applyZoom], h1, h2, h3, h4⟩

/-- C9: a record whose file column holds a (non-empty) file reference but
whose name column is empty or missing passes `hasPreviewableAttachment`:
preview is allowed as a fallback, without any extension check. -/
theorem file_without_name_previewable (record : DvRecord) (fileRef : String)
    (href : record.fileRef = some fileRef) (hne : fileRef ≠ "")
    (hname : record.fileName = none ∨ record.fileName = some "") :
    hasPreviewableAttachment record = true := by
  obtain ⟨fr, fn⟩ := record
  rcases hname with h | h <;> simp_all [hasPreviewableAttachment]

theorem file_without_name_previewable_witness :
    hasPreviewableAttachment ⟨some "fileid", none⟩ = true :=
  file_without_name_previewable ⟨some "fileid", none⟩ "fileid" rfl (by decide) (Or.inl rfl)

/-- C3: a record whose name column carries a supported extension but whose
file column has no content (absent or empty file reference) fails
`hasPreviewableAttachment`, and `checkAttachmentAndUpdateUI` then shows the
fallback message "No previewable file in Attachment." and disables the
preview button. -/
theorem missing_content_shows_fallback_message (record : DvRecord) (name ext : String)
    (hcontent : record.fileRef = none ∨ record.fileRef = some "")
    (hname : record.fileName = some name)
    (hext : extractExt name = some ext)
    (hsupp : ext ∈ supportedExtensions) :
    hasPreviewableAttachment record = false ∧
    checkAttachmentAndUpdateUI true (.ok (hasPreviewableAttachment record)) =
      { fileLabel := "No previewable file in Attachment.", previewDisabled := true } := by
  obtain ⟨fr, fn⟩ := record
  rcases hcontent with h | h <;>
    simp_all [hasPreviewableAttachment, checkAttachmentAndUpdateUI]

theorem missing_content_shows_fallback_message_witness :
    hasPreviewableAttachment ⟨none, some "scan.pdf"⟩ = false ∧
    checkAttachmentAndUpdateUI true (.ok (hasPreviewableAttachment ⟨none, some "scan.pdf"⟩)) =
      { fileLabel := "No previewable file in Attachment.", previewDisabled := true } :=
  missing_content_shows_fallback_message ⟨none, some "scan.pdf"⟩ "scan.pdf" "pdf"
    (Or.inl rfl) rfl (by decide) (by decide)

/-- C5: a record whose file name has a usable extension outside the
supported list fails `hasPreviewableAttachment`, and `autoLoadPreview`
consequently shows "No previewable file in Attachment." without entering
the preview path (no download, no render), whatever those steps would
have produced. -/
theorem unsupported_extension_no_preview (record : DvRecord) (name ext : String)
    (hname : record.fileName = some name)
    (hext : extractExt name = some ext)
    (hunsup : ext ∉ supportedExtensions) :
    hasPreviewableAttachment record = false ∧
    ∀ (download : Except JsError FileInfo) (pdfDecode : Except Unit Nat)
      (imageReadOk : Bool) (docxRender : Except JsError Unit),
      autoLoadPreview true true (.ok record) download pdfDecode imageReadOk docxRender =
        .infoMessage "No previewable file in Attachment." := by
  have hne : name ≠ "" := by
    intro h
    rw [h] at hext
    simp [extractExt, lastIndexOfAux] at hext
  have hfalse : hasPreviewableAttachment record = false := by
    obtain ⟨fr, fn⟩ := record
    cases fr with
    | none => simp [hasPreviewableAttachment]
    | some r => simp_all [hasPreviewableAttachment]
  refine ⟨hfalse, ?_⟩
  intro download pdfDecode imageReadOk docxRender
  simp [autoLoadPreview, hfalse]

theorem unsupported_extension_no_preview_witness :
    hasPreviewableAttachment ⟨some "fileid", some "notes.txt"⟩ = false ∧
    autoLoadPreview true true (.ok ⟨some "fileid", some "notes.txt"⟩)
        (.ok ⟨"notes.txt", "application/octet-stream"⟩) (.ok 1) true (.ok ()) =
      .infoMessage "No previewable file in Attachment." := by
  have h := unsupported_extension_no_preview ⟨some "fileid", some "notes.txt"⟩
    "notes.txt" "txt" rfl (by decide) (by decide)
  exact ⟨h.1, h.2 _ _ _ _⟩

/-- C10: the `mimeType` computed by `downloadFile` is one of exactly seven
values, and it is determined solely by which of the seven dotted suffix
patterns the lowercased file name ends with — in particular it is
case-insensitive in the file name. -/
theorem mime_type_seven_values (name other : String)
    (h : ∀ p ∈ mimePatterns,
      strEndsWith (strToLower name) p = strEndsWith (strToLower other) p) :
    mimeFromName name ∈ mimeValues ∧ mimeFromName name = mimeFromName other := by
  simp only [mimePatterns, List.mem_cons, List.not_mem_nil, or_false,
    forall_eq_or_imp, forall_eq] at h
  obtain ⟨h1, h2, h3, h4, h5, h6, h7⟩ := h
  constructor
  · simp only [mimeFromName]
    split_ifs <;> simp [mimeValues]
  · simp only [mimeFromName]
    rw [h1, h2, h3, h4, h5, h6, h7]

theorem mime_type_seven_values_witness :
    mimeFromName "Invoice.PDF" ∈ mimeValues ∧
    mimeFromName "Invoice.PDF" = mimeFromName "invoice.pdf" :=
  mime_type_seven_values "Invoice.PDF" "invoice.pdf" (by decide)

/-- C6: whenever an error escapes the download step or the render step,
the top-level handler of `onPreviewClick` catches it and shows exactly one
of two user-visible messages, the permission-denied one precisely when the
error carries HTTP status 403 and the generic one otherwise. -/
theorem preview_error_two_messages (download : Except JsError FileInfo)
    (pdfDecode : Except Unit Nat) (imageReadOk : Bool)
    (docxRender : Except JsError Unit) (e : JsError)
    (herr : download = .error e ∨
      ∃ file, download = .ok file ∧
        renderFilePreview file pdfDecode imageReadOk docxRender = .error e) :
    onPreviewClick false true download pdfDecode imageReadOk docxRender =
      .errorAlert (errorMessageFor e) ∧
    (errorMessageFor e = "You do not have permission to view this document." ∨
     errorMessageFor e = "Error loading document preview.") ∧
    (errorMessageFor e = "You do not have permission to view this document." ↔
      e.status = some 403) := by
  refine ⟨?_, ?_, ?_⟩
  · rcases herr with h | ⟨file, hf, hr⟩
    · simp [onPreviewClick, h]
    · simp [onPreviewClick, hf, hr]
  · unfold errorMessageFor
    split_ifs <;> simp
  · unfold errorMessageFor
    split_ifs with h403 <;> simp [h403]

theorem preview_error_two_messages_witness :
    onPreviewClick false true (.error ⟨some 403⟩) (.ok 1) true (.ok ()) =
      .errorAlert "You do not have permission to view this document." ∧
    onPreviewClick false true (.error ⟨some 500⟩) (.ok 1) true (.ok ()) =
      .errorAlert "Error loading document preview." := by
  have h1 := preview_error_two_messages (.error ⟨some 403⟩) (.ok 1) true (.ok ())
    ⟨some 403⟩ (Or.inl rfl)
  have h2 := preview_error_two_messages (.error ⟨some 500⟩) (.ok 1) true (.ok ())
    ⟨some 500⟩ (Or.inl rfl)
  exact ⟨by simpa [errorMessageFor] using h1.1, by simpa [errorMessageFor] using h2.1⟩

/-- C7: for every file name and sniffed MIME type, and every behaviour of
the external decoders, the outcome of `renderFilePreview` comes from
exactly the single branch chosen by `selectBranch`, and that branch is one
of the four categories PDF, image, DOCX, fallback (the legacy `.doc`
message and the unsupported-type message are both graceful fallbacks). -/
theorem render_dispatch_four_branches (file : FileInfo)
    (pdfDecode : Except Unit Nat) (imageReadOk : Bool)
    (docxRender : Except JsError Unit) :
    branchCatOfResult (renderFilePreview file pdfDecode imageReadOk docxRender) =
      selectBranch file ∧
    (selectBranch file = .pdf ∨ selectBranch file = .image ∨
     selectBranch file = .docx ∨ selectBranch file = .fallback) := by
  constructor
  · unfold renderFilePreview selectBranch
    split_ifs <;>
      cases pdfDecode <;> cases docxRender <;> cases imageReadOk <;>
        simp [branchCatOfResult]
  · unfold selectBranch
    split_ifs <;> simp

/-- C4 counterexample: DOCX is a supported file type, yet a failure of
`renderAsync` in the DOCX branch is not replaced by an inline message —
`renderFilePreview` rejects with the library's error, contradicting the
claim that every supported type's rendering failure is handled within its
branch. -/
theorem docx_failure_propagates_counterexample :
    renderFilePreview ⟨"report.docx", mimeFromName "report.docx"⟩ (.ok 1) true
        (.error ⟨none⟩) = .error ⟨none⟩ := by decide

/-- C4 amended: a failure in the PDF branch or in the image branch is
handled within that branch and replaced by an inline "could not render"
message carrying a download affordance; a failure of the DOCX branch is
the one and only way an error propagates out of `renderFilePreview`
(where the top-level action handler catches it). -/
theorem render_failure_handling_amended (file : FileInfo)
    (pdfDecode : Except Unit Nat) (imageReadOk : Bool)
    (docxRender : Except JsError Unit) :
    (isPdfBranch file = true →
      renderFilePreview file (.error ()) imageReadOk docxRender =
        .ok (.pdfErrorBlock
          "Could not render PDF preview. You can still use the Download button to open the file.")) ∧
    (isPdfBranch file = false → isImageBranch file = true →
      renderFilePreview file pdfDecode false docxRender =
        .ok (.imageErrorBlock
          "Could not render image preview. You can still use the Download button to open the file.")) ∧
    (∀ e, renderFilePreview file pdfDecode imageReadOk docxRender = .error e ↔
      (isPdfBranch file = false ∧ isImageBranch file = false ∧
       isDocxBranch file = true ∧ docxRender = .error e)) := by
  refine ⟨?_, ?_, ?_⟩
  · intro hpdf
    simp [renderFilePreview, hpdf]
  · intro hpdf himg
    simp [renderFilePreview, hpdf, himg]
  · intro e
    unfold renderFilePreview
    split_ifs with h1 h2 h3 h4 <;>
      cases pdfDecode <;> cases docxRender <;> cases imageReadOk <;>
        simp_all

theorem render_failure_handling_amended_witness :
    renderFilePreview ⟨"a.pdf", "application/pdf"⟩ (.error ()) true (.ok ()) =
      .ok (.pdfErrorBlock
        "Could not render PDF preview. You can still use the Download button to open the file.") ∧
    renderFilePreview ⟨"b.png", "image/png"⟩ (.ok 1) false (.ok ()) =
      .ok (.imageErrorBlock
        "Could not render image preview. You can still use the Download button to open the file.") ∧
    renderFilePreview ⟨"c.docx", docxMimeType⟩ (.ok 1) true (.error ⟨some 500⟩) =
      .error ⟨some 500⟩ := by
  refine ⟨(render_failure_handling_amended ⟨"a.pdf", "application/pdf"⟩ (.error ()) true
      (.ok ())).1 (by decide),
    (render_failure_handling_amended ⟨"b.png", "image/png"⟩ (.ok 1) false (.ok ())).2.1
      (by decide) (by decide),
    ((render_failure_handling_amended ⟨"c.docx", docxMimeType⟩ (.ok 1) true
      (.error ⟨some 500⟩)).2.2 ⟨some 500⟩).mpr ⟨by decide, by decide, by decide, rfl⟩⟩

/-! ## Helper lemmas: the PDF page loop -/

theorem pdfRenderFrom_eq (m : Nat) : ∀ pageNum numPages nextCanvas : Nat,
    numPages + 1 - pageNum = m →
    pdfRenderFrom pageNum numPages nextCanvas =
      (List.range m).map (fun i => (pageNum + i, nextCanvas + i)) := by
  induction m with
  | zero =>
    intro k n c h
    have hk : ¬ k ≤ n := by omega
    rw [pdfRenderFrom]
    simp [hk]
  | succ j ih =>
    intro k n c h
    have hk : k ≤ n := by omega
    rw [pdfRenderFrom]
    rw [if_pos hk, ih (k + 1) n (c + 1) (by omega), List.range_succ_eq_map]
    simp only [List.map_cons, List.map_map, Nat.add_zero]
    refine congrArg (List.cons _) (List.map_congr_left ?_)
    intro i _
    simp only [Function.comp_apply, Nat.succ_eq_add_one, Prod.mk.injEq]
    omega

theorem pdfPageRenders_eq (n : Nat) :
    pdfPageRenders n = (List.range n).map (fun i => (i + 1, i)) := by
  rw [pdfPageRenders, pdfRenderFrom_eq n 1 n 0 (by omega)]
  refine List.map_congr_left ?_
  intro i _
  simp [Nat.add_comm]

theorem pdfPageRenders_fst (n : Nat) :
    (pdfPageRenders n).map Prod.fst = List.range' 1 n := by
  rw [pdfPageRenders_eq, List.range'_eq_map_range, List.map_map]
  refine List.map_congr_left ?_
  intro i _
  simp [Nat.add_comm]

theorem pdfPageRenders_snd (n : Nat) :
    (pdfPageRenders n).map Prod.snd = List.range n := by
  rw [pdfPageRenders_eq, List.map_map]
  have : (Prod.snd ∘ fun i : Nat => (i + 1, i)) = id := by
    funext i
    rfl
  rw [this, List.map_id]

end DocumentPreview

namespace DocumentPreview

/-- C8: on a PDF document that decodes with `numPages` pages, the PDF
branch renders exactly the pages `1 … numPages`, in ascending order, each
exactly once and each on its own freshly created canvas (the canvas ids
are pairwise distinct). -/
theorem pdf_renders_each_page_once (numPages : Nat) (file : FileInfo)
    (imageReadOk : Bool) (docxRender : Except JsError Unit)
    (hpdf : isPdfBranch file = true) :
    renderFilePreview file (.ok numPages) imageReadOk docxRender =
      .ok (.pdfPages (pdfPageRenders numPages)) ∧
    (pdfPageRenders numPages).map Prod.fst = List.range' 1 numPages ∧
    (∀ p, p ∈ (pdfPageRenders numPages).map Prod.fst ↔ 1 ≤ p ∧ p ≤ numPages) ∧
    (∀ p, 1 ≤ p → p ≤ numPages →
      ((pdfPageRenders numPages).map Prod.fst).count p = 1) ∧
    List.Pairwise (fun a b : Nat × Nat => a.1 < b.1) (pdfPageRenders numPages) ∧
    ((pdfPageRenders numPages).map Prod.snd).Nodup := by
  have hfst := pdfPageRenders_fst numPages
  have hmem : ∀ p, p ∈ (pdfPageRenders numPages).map Prod.fst ↔ 1 ≤ p ∧ p ≤ numPages := by
    intro p
    rw [hfst, List.mem_range'_1]
    omega
  refine ⟨by simp [renderFilePreview, hpdf], hfst, hmem, ?_, ?_, ?_⟩
  · intro p h1 h2
    have hnd : ((pdfPageRenders numPages).map Prod.fst).Nodup := by
      rw [hfst, List.range'_eq_map_range]
      exact (List.nodup_range numPages).map (fun a b => by omega)
    exact List.count_eq_one_of_mem hnd ((hmem p).mpr ⟨h1, h2⟩)
  · have := List.pairwise_lt_range numPages
    rw [pdfPageRenders_eq]
    exact (List.pairwise_map.mpr (this.imp (fun h => by omega)))
  · rw [pdfPageRenders_snd]
    exact List.nodup_range numPages

end DocumentPreview

namespace DocumentPreview

theorem pdf_renders_each_page_once_witness :
    renderFilePreview ⟨"scan.pdf", "application/pdf"⟩ (.ok 2) true (.ok ()) =
      .ok (.pdfPages (pdfPageRenders 2)) ∧
    (pdfPageRenders 2).map Prod.fst = List.range' 1 2 := by
  have h := pdf_renders_each_page_once 2 ⟨"scan.pdf", "application/pdf"⟩ true (.ok ())
    (by decide)
  exact ⟨h.1, h.2.1⟩

/-! ## Helper lemmas: object-URL lifecycle invariant -/

theorem cleanupFileUrl_currentFileUrl (s : UrlState) :
    (cleanupFileUrl s).currentFileUrl = none := by
  unfold cleanupFileUrl
  cases hc : s.currentFileUrl <;> simp [hc]

theorem cleanupFileUrl_nextUrl (s : UrlState) :
    (cleanupFileUrl s).nextUrl = s.nextUrl := by
  unfold cleanupFileUrl
  cases hc : s.currentFileUrl <;> rfl

theorem cleanupFileUrl_liveUrls_of_some {s : UrlState} {u : Nat}
    (h : s.currentFileUrl = some u) :
    (cleanupFileUrl s).liveUrls = s.liveUrls.erase u := by
  unfold cleanupFileUrl
  rw [h]

/-- Reachability invariant of the URL state machine: the live URLs are
distinct, all below the fresh counter, and are exactly the current file
URL plus the pdf worker URL; file and worker URLs never coincide; no
worker URL exists before the worker promise is created. -/
structure UrlInv (s : UrlState) : Prop where
  nodup : s.liveUrls.Nodup
  bounded : ∀ u ∈ s.liveUrls, u < s.nextUrl
  liveIff : ∀ u, u ∈ s.liveUrls ↔
    s.currentFileUrl = some u ∨ s.pdfWorkerUrl = some u
  distinct : ∀ u v, s.currentFileUrl = some u → s.pdfWorkerUrl = some v → u ≠ v
  workerPromise : s.workerPromiseMade = false → s.pdfWorkerUrl = none

theorem urlInv_init : UrlInv initUrlState := by
  refine ⟨?_, ?_, ?_, ?_, ?_⟩ <;> simp [initUrlState]

theorem urlInv_cleanup {s : UrlState} (h : UrlInv s) : UrlInv (cleanupFileUrl s) := by
  obtain ⟨hnd, hb, hiff, hdist, hwp⟩ := h
  unfold cleanupFileUrl
  cases hcur : s.currentFileUrl with
  | none => exact ⟨hnd, hb, by simpa [hcur] using hiff, by simp [hcur], hwp⟩
  | some u =>
    refine ⟨hnd.erase u, ?_, ?_, by simp, hwp⟩
    · intro v hv
      exact hb v (List.mem_of_mem_erase hv)
    · intro v
      show v ∈ s.liveUrls.erase u ↔ none = some v ∨ s.pdfWorkerUrl = some v
      rw [hnd.mem_erase_iff]
      simp only [hiff v, hcur]
      constructor
      · rintro ⟨hvu, h | h⟩
        · exact absurd (Option.some_injective _ h).symm hvu
        · exact Or.inr h
      · rintro (h | h)
        · exact absurd h (by simp)
        · exact ⟨fun hvu => hdist u v hcur h hvu.symm, Or.inr h⟩

theorem urlInv_create {s : UrlState} (h : UrlInv s)
    (hcur : s.currentFileUrl = none) : UrlInv (createFileUrl s) := by
  obtain ⟨hnd, hb, hiff, hdist, hwp⟩ := h
  have hfresh : s.nextUrl ∉ s.liveUrls := fun hmem => absurd (hb _ hmem) (by omega)
  refine ⟨?_, ?_, ?_, ?_, hwp⟩
  · show (s.liveUrls ++ [s.nextUrl]).Nodup
    rw [List.nodup_append]
    refine ⟨hnd, List.nodup_singleton _, ?_⟩
    intro a ha hb'
    simp only [List.mem_singleton] at hb'
    exact hfresh (hb' ▸ ha)
  · show ∀ u ∈ s.liveUrls ++ [s.nextUrl], u < s.nextUrl + 1
    intro u hu
    rcases List.mem_append.mp hu with h1 | h1
    · have := hb u h1
      omega
    · simp only [List.mem_singleton] at h1
      omega
  · intro u
    show u ∈ s.liveUrls ++ [s.nextUrl] ↔
      some s.nextUrl = some u ∨ s.pdfWorkerUrl = some u
    simp only [List.mem_append, List.mem_singleton]
    rw [hiff u, hcur]
    constructor
    · rintro ((h | h) | h)
      · exact absurd h (by simp)
      · exact Or.inr h
      · exact Or.inl (by rw [h])
    · rintro (h | h)
      · exact Or.inr (Option.some_injective _ h).symm
      · exact Or.inl (Or.inr h)
  · intro u v hu hv
    have hu' : u = s.nextUrl := (Option.some_injective _ hu).symm
    have hv' : v ∈ s.liveUrls := (hiff v).mpr (Or.inr hv)
    have := hb v hv'
    omega

theorem urlInv_revokeWorker {s : UrlState} (h : UrlInv s) :
    UrlInv (match s.pdfWorkerUrl with
      | some u => { s with pdfWorkerUrl := none, liveUrls := s.liveUrls.erase u }
      | none => s) := by
  obtain ⟨hnd, hb, hiff, hdist, hwp⟩ := h
  cases hw : s.pdfWorkerUrl with
  | none =>
    exact ⟨hnd, hb, by simpa [hw] using hiff,
      fun u v hu hv => by rw [hw] at hv; exact absurd hv (by simp), fun _ => hw⟩
  | some u =>
    refine ⟨hnd.erase u, ?_, ?_, ?_, fun _ => rfl⟩
    · intro v hv
      exact hb v (List.mem_of_mem_erase hv)
    · intro v
      show v ∈ s.liveUrls.erase u ↔ s.currentFileUrl = some v ∨ none = some v
      rw [hnd.mem_erase_iff]
      simp only [hiff v, hw]
      constructor
      · rintro ⟨hvu, h | h⟩
        · exact Or.inl h
        · exact absurd (Option.some_injective _ h).symm hvu
      · rintro (h | h)
        · exact ⟨fun hvu => hdist v u h hw hvu, Or.inl h⟩
        · exact absurd h (by simp)
    · intro a b ha hb'
      exact absurd hb' (by simp)

theorem urlInv_step {s : UrlState} (h : UrlInv s) (op : UrlOp) :
    UrlInv (urlStep s op) := by
  cases op with
  | previewLoad => exact urlInv_create (urlInv_cleanup h) (cleanupFileUrl_currentFileUrl s)
  | previewFail => exact h
  | closeModal => exact urlInv_cleanup h
  | ensureWorker =>
    obtain ⟨hnd, hb, hiff, hdist, hwp⟩ := h
    show UrlInv (if s.workerPromiseMade then s else _)
    cases hm : s.workerPromiseMade with
    | true => exact ⟨hnd, hb, hiff, hdist, by simp [hm]⟩
    | false =>
      have hw : s.pdfWorkerUrl = none := hwp hm
      have hfresh : s.nextUrl ∉ s.liveUrls := fun hmem => absurd (hb _ hmem) (by omega)
      rw [if_neg (by simp)]
      refine ⟨?_, ?_, ?_, ?_, ?_⟩
      · show (s.liveUrls ++ [s.nextUrl]).Nodup
        rw [List.nodup_append]
        refine ⟨hnd, List.nodup_singleton _, ?_⟩
        intro a ha hb'
        simp only [List.mem_singleton] at hb'
        exact hfresh (hb' ▸ ha)
      · show ∀ u ∈ s.liveUrls ++ [s.nextUrl], u < s.nextUrl + 1
        intro u hu
        rcases List.mem_append.mp hu with h1 | h1
        · have := hb u h1
          omega
        · simp only [List.mem_singleton] at h1
          omega
      · intro u
        show u ∈ s.liveUrls ++ [s.nextUrl] ↔
          s.currentFileUrl = some u ∨ some s.nextUrl = some u
        simp only [List.mem_append, List.mem_singleton]
        rw [hiff u, hw]
        constructor
        · rintro ((h | h) | h)
          · exact Or.inl h
          · exact absurd h (by simp)
          · exact Or.inr (by rw [h])
        · rintro (h | h)
          · exact Or.inl (Or.inl h)
          · exact Or.inr (Option.some_injective _ h).symm
      · intro u v hu hv
        have h1 : u ∈ s.liveUrls := (hiff u).mpr (Or.inl hu)
        have h2 := hb u h1
        have hv' : v = s.nextUrl := (Option.some_injective _ hv).symm
        omega
      · intro hcontra
        exact absurd hcontra (by simp)
  | destroyCtrl => exact urlInv_revokeWorker (urlInv_cleanup h)

theorem urlInv_foldl (ops : List UrlOp) :
    ∀ s : UrlState, UrlInv s → UrlInv (ops.foldl urlStep s) := by
  induction ops with
  | nil => intro s hs; exact hs
  | cons op rest ih => intro s hs; exact ih _ (urlInv_step hs op)

theorem urlInv_run (ops : List UrlOp) : UrlInv (runUrl ops) :=
  urlInv_foldl ops initUrlState urlInv_init

theorem destroy_clears_urls {s : UrlState} (h : UrlInv s) :
    (urlStep s .destroyCtrl).liveUrls = [] := by
  have hinv := urlInv_step h UrlOp.destroyCtrl
  have hcur : (urlStep s .destroyCtrl).currentFileUrl = none := by
    unfold urlStep cleanupFileUrl
    cases hc : s.currentFileUrl <;> cases hw : s.pdfWorkerUrl <;> simp [hc, hw]
  have hwork : (urlStep s .destroyCtrl).pdfWorkerUrl = none := by
    unfold urlStep cleanupFileUrl
    cases hc : s.currentFileUrl <;> cases hw : s.pdfWorkerUrl <;> simp [hc, hw]
  rw [List.eq_nil_iff_forall_not_mem]
  intro u hu
  rcases (hinv.liveIff u).mp hu with h1 | h1
  · rw [hcur] at h1
    exact absurd h1 (by simp)
  · rw [hwork] at h1
    exact absurd h1 (by simp)

theorem liveUrls_length_le_two {s : UrlState} (h : UrlInv s) :
    s.liveUrls.length ≤ 2 := by
  have hsub : s.liveUrls ⊆ s.currentFileUrl.toList ++ s.pdfWorkerUrl.toList := by
    intro u hu
    rcases (h.liveIff u).mp hu with h1 | h1 <;>
      simp [List.mem_append, h1, Option.mem_toList]
  have := (List.subperm_of_subset h.nodup hsub).length_le
  have hlen : (s.currentFileUrl.toList ++ s.pdfWorkerUrl.toList).length ≤ 2 := by
    rw [List.length_append]
    cases s.currentFileUrl <;> cases s.pdfWorkerUrl <;> simp
  omega

end DocumentPreview

namespace DocumentPreview

/-- C1 counterexample: it is not the case that exactly one object URL
created by the control is live at any time.  In the inline control,
loading the pdf.js worker and then successfully previewing a file leaves
two control-created object URLs live simultaneously, and a preview
followed by `destroy` leaves zero. -/
theorem object_url_exactly_one_counterexample :
    (runUrl [UrlOp.ensureWorker, UrlOp.previewLoad]).liveUrls.length = 2 ∧
    (runUrl [UrlOp.previewLoad, UrlOp.destroyCtrl]).liveUrls.length = 0 := by decide

/-- C1 amended: after any sequence of preview operations, the live
control-created object URLs are exactly the current file URL plus (in the
inline control) the pdf worker URL — so at most two are live, and at most
one file object URL is live at any time.  A previously created file URL
is revoked before a successful preview creates a new one, and teardown
(`destroy`) revokes everything, leaving no live URL. -/
theorem object_url_lifecycle_amended (ops : List UrlOp) (u : Nat) :
    (runUrl ops).liveUrls.Nodup ∧
    (∀ v, v ∈ (runUrl ops).liveUrls ↔
      (runUrl ops).currentFileUrl = some v ∨ (runUrl ops).pdfWorkerUrl = some v) ∧
    (runUrl ops).liveUrls.length ≤ 2 ∧
    ((runUrl ops).currentFileUrl = some u →
      (urlStep (runUrl ops) .previewLoad).currentFileUrl ≠ some u ∧
      u ∉ (urlStep (runUrl ops) .previewLoad).liveUrls) ∧
    (runUrl (ops ++ [UrlOp.destroyCtrl])).liveUrls = [] := by
  have hinv := urlInv_run ops
  refine ⟨hinv.nodup, hinv.liveIff, liveUrls_length_le_two hinv, ?_, ?_⟩
  · intro hcur
    have hu_live : u ∈ (runUrl ops).liveUrls := (hinv.liveIff u).mpr (Or.inl hcur)
    have hu_lt : u < (runUrl ops).nextUrl := hinv.bounded u hu_live
    constructor
    · show (createFileUrl (cleanupFileUrl (runUrl ops))).currentFileUrl ≠ some u
      show some (cleanupFileUrl (runUrl ops)).nextUrl ≠ some u
      rw [cleanupFileUrl_nextUrl]
      intro hcontra
      have := Option.some_injective _ hcontra
      omega
    · show u ∉ (createFileUrl (cleanupFileUrl (runUrl ops))).liveUrls
      show u ∉ (cleanupFileUrl (runUrl ops)).liveUrls ++ [(cleanupFileUrl (runUrl ops)).nextUrl]
      rw [cleanupFileUrl_nextUrl, cleanupFileUrl_liveUrls_of_some hcur]
      simp only [List.mem_append, List.mem_singleton]
      rintro (h | h)
      · exact hinv.nodup.not_mem_erase h
      · omega
  · have hsplit : runUrl (ops ++ [UrlOp.destroyCtrl]) =
        urlStep (runUrl ops) .destroyCtrl := by
      simp [runUrl, List.foldl_append]
    rw [hsplit]
    exact destroy_clears_urls (urlInv_run ops)

theorem object_url_lifecycle_amended_witness :
    (runUrl [UrlOp.previewLoad]).currentFileUrl = some 0 ∧
    (urlStep (runUrl [UrlOp.previewLoad]) .previewLoad).currentFileUrl ≠ some 0 ∧
    0 ∉ (urlStep (runUrl [UrlOp.previewLoad]) .previewLoad).liveUrls ∧
    (runUrl ([UrlOp.previewLoad] ++ [UrlOp.destroyCtrl])).liveUrls = [] := by
  have h := object_url_lifecycle_amended [UrlOp.previewLoad] 0
  obtain ⟨hne, hnot⟩ := h.2.2.2.1 (by decide)
  exact ⟨by decide, hne, hnot, h.2.2.2.2⟩

end DocumentPreview
